import Mathlib

/-!
Verification of the task storage and query engine of the todo repository
(src/phase1/src/todo/models.py, utils.py, storage.py).

The Python code is shallowly embedded: the dataclass Task becomes a Lean
structure, the id-keyed Python dict of each storage class becomes an
insertion-ordered association list, exceptions become an Except value
paired with the post-call state (Python mutates the shared Task object in
place, so even a raising call can leave a partially mutated task behind;
the embedding returns the post-state alongside the error to capture this),
and the current time (utils.now_iso) is passed in as an explicit argument.
-/

namespace TodoSpec

/-- Embedding of the dataclass Task in models.py (field for field).
The status and priority Literal annotations are not enforced at runtime in
Python, so they are embedded as plain strings. -/
structure Task where
  title : String
  id : String
  description : Option String
  status : String
  priority : Option String
  tags : List String
  created_at : String
  modified_at : Option String
  due_date : Option String
deriving Repr, DecidableEq

/-- Construction of a Task with the dataclass defaults of models.py:
status 'pending', priority 'medium', tags [], modified_at None,
due_date None, description None. The generated id and the creation
timestamp are effects (uuid4, now_iso) and are taken as arguments. -/
def newTask (title id created_at : String) : Task :=
  { title := title, id := id, description := none, status := "pending",
    priority := some "medium", tags := [], created_at := created_at,
    modified_at := none, due_date := none }

/-- Error taxonomy of the storage layer. The Python code raises
ValueError for an empty title on add and for utils.validate_priority,
ValueError with a duplicate-id message for an id collision on add, and
KeyError for a missing id; the spec names these ValidationError,
DuplicateKeyError and NotFoundError, and the three raise sites are
embedded as three constructors. -/
inductive Err where
  | validationError
  | duplicateKeyError
  | notFoundError
deriving Repr, DecidableEq

/-- The _tasks dict of a storage object: an insertion-ordered association
list from task id (the dict key) to the stored Task. Python dicts preserve
insertion order, which matters because list/search iterate .values(). -/
abbrev StState := List (String × Task)

/-- Embedding of iterating self._tasks.values(). -/
def stValues (s : StState) : List Task := s.map Prod.snd

/-- Embedding of dict key lookup (task_id in self._tasks /
self._tasks[task_id]). -/
def lookupTask (s : StState) (id : String) : Option Task :=
  List.lookup id s

/-- Replacing the task object stored under a key (the Python code mutates
the object in place; the dict key and its position are unchanged). -/
def setTask (s : StState) (id : String) (t : Task) : StState :=
  s.map (fun p => if p.1 = id then (p.1, t) else p)

/-- Embedding of utils.validate_priority: the value must be one of
'high', 'medium', 'low'. -/
def validPriority (v : String) : Bool :=
  v == "high" || v == "medium" || v == "low"

/-- One keyword argument of update_task(task_id, **kwargs). Each data
field of Task can be supplied with a value of its type; unknownF stands
for a supplied name that is not an attribute of Task (hasattr false). -/
inductive FieldUpd where
  | titleF (v : String)
  | idF (v : String)
  | descriptionF (v : Option String)
  | statusF (v : String)
  | priorityF (v : String)
  | tagsF (v : List String)
  | createdAtF (v : String)
  | modifiedAtF (v : Option String)
  | dueDateF (v : Option String)
  | unknownF (name : String)
deriving Repr, DecidableEq

/-- Whether hasattr(task, key) holds for the supplied keyword. -/
def isAttrUpd : FieldUpd → Bool
  | .unknownF _ => false
  | _ => true

/-- Whether the supplied keyword names the modified_at field. -/
def isModifiedAtUpd : FieldUpd → Bool
  | .modifiedAtF _ => true
  | _ => false

/-- Effect of one setattr(task, key, value) on the task record. -/
def applyUpd (t : Task) (u : FieldUpd) : Task :=
  match u with
  | .titleF v => { t with title := v }
  | .idF v => { t with id := v }
  | .descriptionF v => { t with description := v }
  | .statusF v => { t with status := v }
  | .priorityF v => { t with priority := some v }
  | .tagsF v => { t with tags := v }
  | .createdAtF v => { t with created_at := v }
  | .modifiedAtF v => { t with modified_at := v }
  | .dueDateF v => { t with due_date := v }
  | .unknownF _ => t

/-- The for-loop of update_task: walks the kwargs in order, skips names
that are not attributes, validates a supplied priority before assigning
it, and tracks whether any field was applied. On an invalid priority the
loop raises; the error carries the task as mutated so far, because the
Python loop mutates the stored object in place before raising. -/
def updateFields : Task → Bool → List FieldUpd → Except Task (Task × Bool)
  | t, applied, [] => .ok (t, applied)
  | t, applied, u :: rest =>
    match u with
    | .unknownF _ => updateFields t applied rest
    | .priorityF v =>
      if validPriority v then updateFields { t with priority := some v } true rest
      else .error t
    | _ => updateFields (applyUpd t u) true rest

/-- InMemoryStorage.add_task: empty-title check first, then duplicate-id
check, then dict insert (a new key is appended in insertion order). -/
def add_task (s : StState) (t : Task) : Except Err Unit × StState :=
  if t.title = "" then (.error .validationError, s)
  else
    match lookupTask s t.id with
    | some _ => (.error .duplicateKeyError, s)
    | none => (.ok (), s ++ [(t.id, t)])

/-- InMemoryStorage.delete_task: missing id raises KeyError, otherwise
the entry is removed (order of the remaining entries preserved). -/
def delete_task (s : StState) (id : String) : Except Err Unit × StState :=
  match lookupTask s id with
  | none => (.error .notFoundError, s)
  | some _ => (.ok (), s.filter (fun p => !(p.1 == id)))

/-- InMemoryStorage.get_task: missing id raises KeyError, otherwise the
stored task is returned; no state change. -/
def get_task (s : StState) (id : String) : Except Err Task :=
  match lookupTask s id with
  | none => .error .notFoundError
  | some t => .ok t

/-- InMemoryStorage.update_task: missing id raises KeyError; otherwise
the kwargs loop runs on the stored task (mutating it in place), and if at
least one field was applied, modified_at is stamped with now_iso(). An
invalid priority propagates as ValidationError with the task left as
mutated so far and no timestamp stamped. -/
def update_task (s : StState) (id : String) (kws : List FieldUpd) (now : String) :
    Except Err Task × StState :=
  match lookupTask s id with
  | none => (.error .notFoundError, s)
  | some t =>
    match updateFields t false kws with
    | .error t1 => (.error .validationError, setTask s id t1)
    | .ok (t1, applied) =>
      let t2 := if applied then { t1 with modified_at := some now } else t1
      (.ok t2, setTask s id t2)

/-- The sort-key test of list_tasks/search_tasks: the comparison used by
Python sorted with key (task.status == 'completed', task.created_at). -/
def completedB (t : Task) : Bool := t.status == "completed"

/-- Key order of the two-key sort: lexicographic on the pair
(status == 'completed' : Bool with False < True, created_at : str). -/
def tasksLE (a b : Task) : Prop :=
  (completedB a = false ∧ completedB b = true) ∨
    (completedB a = completedB b ∧ a.created_at ≤ b.created_at)

instance : DecidableRel tasksLE := fun a b =>
  inferInstanceAs (Decidable (_ ∨ _))

instance : IsTotal Task tasksLE := by
  constructor
  intro a b
  cases ha : completedB a <;> cases hb : completedB b
  · rcases le_total a.created_at b.created_at with h | h
    · exact Or.inl (Or.inr ⟨ha.trans hb.symm, h⟩)
    · exact Or.inr (Or.inr ⟨hb.trans ha.symm, h⟩)
  · exact Or.inl (Or.inl ⟨ha, hb⟩)
  · exact Or.inr (Or.inl ⟨hb, ha⟩)
  · rcases le_total a.created_at b.created_at with h | h
    · exact Or.inl (Or.inr ⟨ha.trans hb.symm, h⟩)
    · exact Or.inr (Or.inr ⟨hb.trans ha.symm, h⟩)

instance : IsTrans Task tasksLE := by
  constructor
  intro a b c hab hbc
  rcases hab with ⟨ha1, ha2⟩ | ⟨he1, hle1⟩
  · rcases hbc with ⟨hb1, hb2⟩ | ⟨he2, hle2⟩
    · exact absurd (ha2.symm.trans hb1) (by decide)
    · exact Or.inl ⟨ha1, he2.symm.trans ha2⟩
  · rcases hbc with ⟨hb1, hb2⟩ | ⟨he2, hle2⟩
    · exact Or.inl ⟨he1.trans hb1, hb2⟩
    · exact Or.inr ⟨he1.trans he2, le_trans hle1 hle2⟩

/-- Embedding of sorted(tasks, key=lambda task: (task.status == 'completed',
task.created_at)). Python sorted is a stable sort by key; insertion sort
with the key order is stable as well, so the two agree on every input. -/
def sortTasks (l : List Task) : List Task :=
  l.insertionSort tasksLE

/-- InMemoryStorage.list_tasks. -/
def list_tasks (s : StState) : List Task :=
  sortTasks (stValues s)

/-- Whether the char list n occurs at the start of the char list h
(helper for the Python substring operator). -/
def startsWithChars : List Char → List Char → Bool
  | [], _ => true
  | _ :: _, [] => false
  | a :: as, b :: bs => a == b && startsWithChars as bs

/-- The Python substring test (needle in hay for str): n occurs
contiguously somewhere in h. -/
def hasSub (n : List Char) : List Char → Bool
  | [] => startsWithChars n []
  | c :: h => startsWithChars n (c :: h) || hasSub n h

/-- The query branch of search_tasks: the task stays a match unless the
lowercased query occurs neither in the lowercased title nor in the
lowercased description (a None description never matches). -/
def queryMatches (q : String) (t : Task) : Bool :=
  hasSub q.toLower.data t.title.toLower.data ||
    (match t.description with
     | none => false
     | some d => hasSub q.toLower.data d.toLower.data)

/-- The filter predicate of search_tasks. Each criterion is guarded by
Python truthiness (if query: / if status and ... / if tags and ...), so a
None argument, an empty string, or an empty tag list leaves that
criterion unchecked. Within tags the test is any(tag in task.tags). -/
def taskMatches (query status priority : Option String)
    (tags : Option (List String)) (t : Task) : Bool :=
  (match query with
   | none => true
   | some q => if q = "" then true else queryMatches q t) &&
  (match status with
   | none => true
   | some st => if st = "" then true else t.status == st) &&
  (match priority with
   | none => true
   | some p => if p = "" then true else t.priority == some p) &&
  (match tags with
   | none => true
   | some tg => if tg = [] then true else tg.any (fun x => t.tags.contains x))

/-- InMemoryStorage.search_tasks: collect the matching tasks in dict
order, then sort with the same key as list_tasks. -/
def search_tasks (s : StState) (query status priority : Option String)
    (tags : Option (List String)) : List Task :=
  sortTasks ((stValues s).filter (taskMatches query status priority tags))

/-! FileStorage: the persisted variant. The backing JSON file maps task
id to the record produced by Task.to_dict; json.dump/json.load preserve
key order and faithfully round-trip the string/null/list values involved,
so the file is embedded as the parsed association list of records, with
an explicit constructor for an unparseable (corrupt) file and one for an
absent file. -/

/-- The record written for one task by Task.to_dict in models.py. -/
structure TaskRec where
  id : String
  title : String
  description : Option String
  status : String
  priority : Option String
  tags : List String
  created_at : String
  modified_at : Option String
  due_date : Option String
deriving Repr, DecidableEq

/-- Task.to_dict. -/
def Task.to_dict (t : Task) : TaskRec :=
  { id := t.id, title := t.title, description := t.description,
    status := t.status, priority := t.priority, tags := t.tags,
    created_at := t.created_at, modified_at := t.modified_at,
    due_date := t.due_date }

/-- The Task(**task_data) call of FileStorage._load_tasks: every field of
the record is passed to the Task constructor. -/
def taskOfRec (r : TaskRec) : Task :=
  { title := r.title, id := r.id, description := r.description,
    status := r.status, priority := r.priority, tags := r.tags,
    created_at := r.created_at, modified_at := r.modified_at,
    due_date := r.due_date }

/-- Content of the backing file as seen at load time. -/
inductive DiskContent where
  | absent
  | corrupt
  | parsed (recs : List (String × TaskRec))
deriving Repr, DecidableEq

/-- FileStorage._save_tasks serializes the whole dict in order, keyed by
the dict key. -/
def serializeTasks (s : StState) : List (String × TaskRec) :=
  s.map (fun p => (p.1, p.2.to_dict))

/-- FileStorage._load_tasks: an absent file yields an empty dict; a
JSONDecodeError is caught and yields an empty dict (the except branch,
the corrupt case); a parsed file is rebuilt record by record via
Task(**task_data), keyed by the file key. -/
def loadDisk : DiskContent → StState
  | .absent => []
  | .corrupt => []
  | .parsed recs => recs.map (fun p => (p.1, taskOfRec p.2))

/-- State of a FileStorage object: the in-memory dict, the current disk
content, and a count of completed _save_tasks calls (to state when the
backing file is rewritten). -/
structure FState where
  mem : StState
  disk : DiskContent
  writes : Nat
deriving Repr, DecidableEq

/-- FileStorage._save_tasks: overwrite the file with the serialization of
the whole in-memory dict. -/
def fs_save (fs : FState) : FState :=
  { fs with disk := .parsed (serializeTasks fs.mem), writes := fs.writes + 1 }

/-- FileStorage.__init__ + _load_tasks: load the disk content (swallowing
parse errors) into the in-memory dict; the file itself is not written. -/
def fs_init (d : DiskContent) : FState :=
  { mem := loadDisk d, disk := d, writes := 0 }

/-- FileStorage.add_task: the same checks and insert as the in-memory
variant, followed by _save_tasks on success only. -/
def fs_add_task (fs : FState) (t : Task) : Except Err Unit × FState :=
  if t.title = "" then (.error .validationError, fs)
  else
    match lookupTask fs.mem t.id with
    | some _ => (.error .duplicateKeyError, fs)
    | none => (.ok (), fs_save { fs with mem := fs.mem ++ [(t.id, t)] })

/-- FileStorage.delete_task: remove then _save_tasks; a missing id raises
before any change. -/
def fs_delete_task (fs : FState) (id : String) : Except Err Unit × FState :=
  match lookupTask fs.mem id with
  | none => (.error .notFoundError, fs)
  | some _ => (.ok (), fs_save { fs with mem := fs.mem.filter (fun p => !(p.1 == id)) })

/-- FileStorage.get_task (no write). -/
def fs_get_task (fs : FState) (id : String) : Except Err Task :=
  match lookupTask fs.mem id with
  | none => .error .notFoundError
  | some t => .ok t

/-- FileStorage.update_task: identical loop to the in-memory variant;
_save_tasks runs after the loop on the non-raising path only, so a
ValidationError propagates with the in-memory task partially mutated and
the file not rewritten, while a loop that applied nothing still triggers
a rewrite. -/
def fs_update_task (fs : FState) (id : String) (kws : List FieldUpd) (now : String) :
    Except Err Task × FState :=
  match lookupTask fs.mem id with
  | none => (.error .notFoundError, fs)
  | some t =>
    match updateFields t false kws with
    | .error t1 => (.error .validationError, { fs with mem := setTask fs.mem id t1 })
    | .ok (t1, applied) =>
      let t2 := if applied then { t1 with modified_at := some now } else t1
      (.ok t2, fs_save { fs with mem := setTask fs.mem id t2 })

/-- FileStorage.list_tasks (same sort, no write). -/
def fs_list_tasks (fs : FState) : List Task :=
  sortTasks (stValues fs.mem)

/-- FileStorage.search_tasks (same filter and sort, no write). -/
def fs_search_tasks (fs : FState) (query status priority : Option String)
    (tags : Option (List String)) : List Task :=
  sortTasks ((stValues fs.mem).filter (taskMatches query status priority tags))

/-! Operation sequences, used to compare the two variants and to state
the persistence round trip. -/

/-- One call of the public contract. The update constructor carries the
now_iso() value observed by that call. -/
inductive Op where
  | addOp (t : Task)
  | getOp (id : String)
  | updateOp (id : String) (kws : List FieldUpd) (now : String)
  | deleteOp (id : String)
  | listOp
  | searchOp (query status priority : Option String) (tags : Option (List String))
deriving Repr, DecidableEq

/-- Observable outcome of one call: the returned value or the raised
error. -/
inductive Out where
  | unitOut
  | errOut (e : Err)
  | taskOut (t : Task)
  | tasksOut (ts : List Task)
deriving Repr, DecidableEq

/-- One call on the volatile variant. -/
def stepMem : Op → StState → Out × StState
  | .addOp t, s =>
    match add_task s t with
    | (.ok _, s1) => (.unitOut, s1)
    | (.error e, s1) => (.errOut e, s1)
  | .getOp id, s =>
    match get_task s id with
    | .ok t => (.taskOut t, s)
    | .error e => (.errOut e, s)
  | .updateOp id kws now, s =>
    match update_task s id kws now with
    | (.ok t, s1) => (.taskOut t, s1)
    | (.error e, s1) => (.errOut e, s1)
  | .deleteOp id, s =>
    match delete_task s id with
    | (.ok _, s1) => (.unitOut, s1)
    | (.error e, s1) => (.errOut e, s1)
  | .listOp, s => (.tasksOut (list_tasks s), s)
  | .searchOp q st p tg, s => (.tasksOut (search_tasks s q st p tg), s)

/-- One call on the persisted variant. -/
def stepFile : Op → FState → Out × FState
  | .addOp t, fs =>
    match fs_add_task fs t with
    | (.ok _, fs1) => (.unitOut, fs1)
    | (.error e, fs1) => (.errOut e, fs1)
  | .getOp id, fs =>
    match fs_get_task fs id with
    | .ok t => (.taskOut t, fs)
    | .error e => (.errOut e, fs)
  | .updateOp id kws now, fs =>
    match fs_update_task fs id kws now with
    | (.ok t, fs1) => (.taskOut t, fs1)
    | (.error e, fs1) => (.errOut e, fs1)
  | .deleteOp id, fs =>
    match fs_delete_task fs id with
    | (.ok _, fs1) => (.unitOut, fs1)
    | (.error e, fs1) => (.errOut e, fs1)
  | .listOp, fs => (.tasksOut (fs_list_tasks fs), fs)
  | .searchOp q st p tg, fs => (.tasksOut (fs_search_tasks fs q st p tg), fs)

/-- A whole session on the volatile variant: the list of outcomes and the
final state. -/
def runMem : List Op → StState → List Out × StState
  | [], s => ([], s)
  | op :: ops, s =>
    ((stepMem op s).1 :: (runMem ops (stepMem op s).2).1,
      (runMem ops (stepMem op s).2).2)

/-- A whole session on the persisted variant. -/
def runFile : List Op → FState → List Out × FState
  | [], fs => ([], fs)
  | op :: ops, fs =>
    ((stepFile op fs).1 :: (runFile ops (stepFile op fs).2).1,
      (runFile ops (stepFile op fs).2).2)

/-- Adding a sequence of tasks to a persisted engine; a failing add
raises out of the whole sequence. -/
def fs_add_all : List Task → FState → Except Err FState
  | [], fs => .ok fs
  | t :: ts, fs =>
    match fs_add_task fs t with
    | (.ok _, fs1) => fs_add_all ts fs1
    | (.error e, _) => .error e

/-- The ordering stated by the spec for list(): a completed task never
precedes a pending one, and two tasks of the same completion group are in
ascending created_at order. Stated over pairs in list position order. -/
def listOrderRel (a b : Task) : Prop :=
  (a.status = "completed" → b.status = "completed") ∧
    ((a.status = "completed" ↔ b.status = "completed") →
      a.created_at ≤ b.created_at)

/-- Concrete pending task used to instantiate theorems. -/
def sampleA : Task :=
  { title := "Old", id := "a", description := some "need milk",
    status := "pending", priority := some "medium", tags := ["work"],
    created_at := "2025-01-01T00:00:00Z", modified_at := none,
    due_date := none }

/-- Concrete completed task used to instantiate theorems. -/
def sampleB : Task :=
  { title := "Bread", id := "b", description := none,
    status := "completed", priority := some "high", tags := [],
    created_at := "2024-01-01T00:00:00Z", modified_at := none,
    due_date := none }

/-- Concrete two-task storage state used to instantiate theorems. -/
def sampleState : StState := [("a", sampleA), ("b", sampleB)]

/-! Helper lemmas about the sort. -/

theorem sortTasks_perm (l : List Task) : List.Perm (sortTasks l) l :=
  List.perm_insertionSort tasksLE l

theorem sortTasks_sorted (l : List Task) : List.Sorted tasksLE (sortTasks l) :=
  List.sorted_insertionSort tasksLE l

theorem orderedInsert_eq_cons (a : Task) (l : List Task)
    (h : ∀ y ∈ l, tasksLE a y) : List.orderedInsert tasksLE a l = a :: l := by
  cases l with
  | nil => simp [List.orderedInsert]
  | cons x xs => exact List.orderedInsert_of_le tasksLE xs (h x (List.mem_cons_self x xs))

theorem filter_orderedInsert (p : Task → Bool) (a : Task) :
    ∀ l : List Task, List.Sorted tasksLE l →
      (List.orderedInsert tasksLE a l).filter p =
        if p a then List.orderedInsert tasksLE a (l.filter p) else l.filter p := by
  intro l
  induction l with
  | nil =>
    intro _
    by_cases hpa : p a = true <;>
      simp [List.orderedInsert, List.filter_cons, hpa]
  | cons b t ih =>
    intro hs
    have hbt := (List.sorted_cons.mp hs).1
    have ht := (List.sorted_cons.mp hs).2
    by_cases hab : tasksLE a b
    · rw [List.orderedInsert_of_le tasksLE t hab]
      have haall : ∀ y ∈ (b :: t).filter p, tasksLE a y := by
        intro y hy
        rcases List.mem_cons.mp (List.mem_of_mem_filter hy) with h1 | h1
        · exact h1 ▸ hab
        · exact IsTrans.trans a b y hab (hbt y h1)
      by_cases hpa : p a = true
      · rw [if_pos hpa, orderedInsert_eq_cons a _ haall]
        simp [List.filter_cons, hpa]
      · rw [if_neg hpa]
        simp [List.filter_cons, hpa]
    · have hins : List.orderedInsert tasksLE a (b :: t) =
          b :: List.orderedInsert tasksLE a t := by
        simp [List.orderedInsert, hab]
      rw [hins]
      by_cases hpa : p a = true <;> by_cases hpb : p b = true <;>
        simp [List.filter_cons, hpa, hpb, ih ht, List.orderedInsert, hab]

theorem filter_sortTasks (p : Task → Bool) (l : List Task) :
    (sortTasks l).filter p = sortTasks (l.filter p) := by
  induction l with
  | nil => rfl
  | cons a l ih =>
    have h1 : sortTasks (a :: l) =
        List.orderedInsert tasksLE a (sortTasks l) := rfl
    rw [h1, filter_orderedInsert p a (sortTasks l) (sortTasks_sorted l)]
    by_cases hpa : p a = true
    · rw [if_pos hpa, ih]
      have h2 : (a :: l).filter p = a :: l.filter p := by
        simp [List.filter_cons, hpa]
      rw [h2]
      rfl
    · rw [if_neg hpa, ih]
      have h2 : (a :: l).filter p = l.filter p := by
        simp [List.filter_cons, hpa]
      rw [h2]

/-! Helper lemmas about the update loop. -/

theorem updateFields_append (rest : List FieldUpd) :
    ∀ pre : List FieldUpd, ∀ t : Task, ∀ b : Bool, ∀ t1 : Task, ∀ b1 : Bool,
      updateFields t b pre = .ok (t1, b1) →
      updateFields t b (pre ++ rest) = updateFields t1 b1 rest := by
  intro pre
  induction pre with
  | nil =>
    intro t b t1 b1 h
    simp [updateFields] at h
    simp [h.1, h.2]
  | cons u pre ih =>
    intro t b t1 b1 h
    cases u <;> simp only [updateFields, List.cons_append] at h ⊢
    case priorityF v =>
      by_cases hv : validPriority v = true
      · rw [if_pos hv] at h ⊢
        exact ih _ _ _ _ h
      · rw [if_neg hv] at h
        exact absurd h (by simp)
    all_goals exact ih _ _ _ _ h

theorem updateFields_attrOnly :
    ∀ kws : List FieldUpd, ∀ t : Task, ∀ b : Bool,
      updateFields t b kws = updateFields t b (kws.filter isAttrUpd) := by
  intro kws
  induction kws with
  | nil => intro t b; rfl
  | cons u kws ih =>
    intro t b
    cases u <;> simp only [List.filter_cons, isAttrUpd, ite_true, ite_false]
    case priorityF v =>
      simp only [updateFields]
      by_cases hv : validPriority v = true
      · rw [if_pos hv, if_pos hv]
        exact ih _ _
      · rw [if_neg hv, if_neg hv]
    case unknownF name =>
      simp only [updateFields]
      exact ih _ _
    all_goals
      simp only [updateFields]
      exact ih _ _

theorem updateFields_applied :
    ∀ kws : List FieldUpd, ∀ t : Task, ∀ b : Bool, ∀ t1 : Task, ∀ b1 : Bool,
      updateFields t b kws = .ok (t1, b1) → b1 = (b || kws.any isAttrUpd) := by
  intro kws
  induction kws with
  | nil =>
    intro t b t1 b1 h
    simp [updateFields] at h
    simp [h.2]
  | cons u kws ih =>
    intro t b t1 b1 h
    cases u <;> simp only [updateFields] at h <;>
      simp only [List.any_cons, isAttrUpd]
    case priorityF v =>
      by_cases hv : validPriority v = true
      · rw [if_pos hv] at h
        have := ih _ _ _ _ h
        simp [this]
      · rw [if_neg hv] at h
        exact absurd h (by simp)
    case unknownF name =>
      have := ih _ _ _ _ h
      simp [this]
    all_goals
      have := ih _ _ _ _ h
      simp [this]

theorem updateFields_no_attr :
    ∀ kws : List FieldUpd, ∀ t : Task, ∀ b : Bool, ∀ t1 : Task, ∀ b1 : Bool,
      updateFields t b kws = .ok (t1, b1) → kws.any isAttrUpd = false →
      t1 = t := by
  intro kws
  induction kws with
  | nil =>
    intro t b t1 b1 h _
    simp [updateFields] at h
    simp [h.1]
  | cons u kws ih =>
    intro t b t1 b1 h hno
    cases u <;> simp only [List.any_cons, isAttrUpd] at hno <;>
      simp only [updateFields] at h
    case unknownF name =>
      exact ih _ _ _ _ h (by simpa using hno)
    all_goals simp at hno

theorem applyUpd_modified_at (t : Task) (u : FieldUpd)
    (h : isModifiedAtUpd u = false) :
    (applyUpd t u).modified_at = t.modified_at := by
  cases u <;> simp [applyUpd] <;> simp [isModifiedAtUpd] at h

theorem updateFields_error_modified_at :
    ∀ kws : List FieldUpd, ∀ t : Task, ∀ b : Bool, ∀ t1 : Task,
      updateFields t b kws = .error t1 →
      (∀ u ∈ kws, isModifiedAtUpd u = false) →
      t1.modified_at = t.modified_at := by
  intro kws
  induction kws with
  | nil =>
    intro t b t1 h _
    simp [updateFields] at h
  | cons u kws ih =>
    intro t b t1 h hmod
    have hmodu : isModifiedAtUpd u = false := hmod u (List.mem_cons_self u kws)
    have hmodr : ∀ u2 ∈ kws, isModifiedAtUpd u2 = false :=
      fun u2 h2 => hmod u2 (List.mem_cons_of_mem u h2)
    cases u <;> simp only [updateFields] at h
    case priorityF v =>
      by_cases hv : validPriority v = true
      · rw [if_pos hv] at h
        have h3 := ih _ _ _ h hmodr
        simpa using h3
      · rw [if_neg hv] at h
        simp at h
        simp [← h]
    case unknownF name => exact ih _ _ _ h hmodr
    case modifiedAtF v => simp [isModifiedAtUpd] at hmodu
    all_goals
      have h3 := ih _ _ _ h hmodr
      simpa using h3

/-! Helper lemmas about the state. -/

theorem lookup_filter_ne (id : String) :
    ∀ s : StState, List.lookup id (s.filter (fun p => !(p.1 == id))) = none := by
  intro s
  induction s with
  | nil => rfl
  | cons p s ih =>
    obtain ⟨k, v⟩ := p
    by_cases h : (k == id) = true
    · simp [List.filter_cons, h, ih]
    · have hne : k ≠ id := by simpa using h
      have h2 : (id == k) = false := by
        simp only [beq_eq_false_iff_ne]
        exact fun he => hne he.symm
      simp [List.filter_cons, h, List.lookup, h2, ih]

theorem taskOfRec_to_dict (t : Task) : taskOfRec t.to_dict = t := rfl

theorem loadDisk_serialize (s : StState) :
    loadDisk (.parsed (serializeTasks s)) = s := by
  induction s with
  | nil => rfl
  | cons p s ih =>
    simp only [serializeTasks, loadDisk, List.map_cons] at ih ⊢
    rw [ih]
    rfl

theorem lookup_append_self (id : String) (x : Task) :
    ∀ s : StState, List.lookup id s = none →
      List.lookup id (s ++ [(id, x)]) = some x := by
  intro s
  induction s with
  | nil => simp [List.lookup]
  | cons p s ih =>
    obtain ⟨k, v⟩ := p
    intro h
    simp only [List.lookup] at h ⊢
    cases hk : id == k with
    | true => simp [hk] at h
    | false =>
      simp only [hk] at h ⊢
      exact ih h

theorem updateFields_ok_modified_at :
    ∀ kws : List FieldUpd, ∀ t : Task, ∀ b : Bool, ∀ t1 : Task, ∀ b1 : Bool,
      updateFields t b kws = .ok (t1, b1) →
      (∀ u ∈ kws, isModifiedAtUpd u = false) →
      t1.modified_at = t.modified_at := by
  intro kws
  induction kws with
  | nil =>
    intro t b t1 b1 h _
    simp [updateFields] at h
    simp [h.1]
  | cons u kws ih =>
    intro t b t1 b1 h hmod
    have hmodu : isModifiedAtUpd u = false := hmod u (List.mem_cons_self u kws)
    have hmodr : ∀ u2 ∈ kws, isModifiedAtUpd u2 = false :=
      fun u2 h2 => hmod u2 (List.mem_cons_of_mem u h2)
    cases u <;> simp only [updateFields] at h
    case priorityF v =>
      by_cases hv : validPriority v = true
      · rw [if_pos hv] at h
        have h3 := ih _ _ _ _ h hmodr
        simpa using h3
      · rw [if_neg hv] at h
        exact absurd h (by simp)
    case unknownF name => exact ih _ _ _ _ h hmodr
    case modifiedAtF v => simp [isModifiedAtUpd] at hmodu
    all_goals
      have h3 := ih _ _ _ _ h hmodr
      simpa using h3

theorem setTask_cons (k : String) (v : Task) (s : StState) (id : String) (t1 : Task) :
    setTask ((k, v) :: s) id t1 =
      (if k = id then (k, t1) else (k, v)) :: setTask s id t1 := rfl

theorem lookup_setTask (id : String) (t1 : Task) :
    ∀ s : StState, ∀ t : Task, lookupTask s id = some t →
      lookupTask (setTask s id t1) id = some t1 := by
  intro s
  induction s with
  | nil => intro t h; simp [lookupTask, List.lookup] at h
  | cons p s ih =>
    obtain ⟨k, v⟩ := p
    intro t h
    simp only [lookupTask, List.lookup] at h
    by_cases hk2 : k = id
    · rw [setTask_cons, if_pos hk2]
      have hbeq : (id == k) = true := beq_iff_eq.mpr hk2.symm
      simp [lookupTask, List.lookup, hbeq]
    · have hbeq : (id == k) = false := by
        simp only [beq_eq_false_iff_ne]
        exact fun he => hk2 he.symm
      simp only [hbeq] at h
      rw [setTask_cons, if_neg hk2]
      simp only [lookupTask, List.lookup, hbeq]
      exact ih t h

/-! The claim theorems. -/

/-- C2: for every storage state, list() returns exactly the stored tasks
(a permutation of the collection values) in an order where every task
whose status is not completed precedes every completed task, and any two
tasks of the same completion group appear in ascending created_at order. -/
theorem list_tasks_ordering (s : StState) :
    List.Perm (list_tasks s) (stValues s) ∧
      List.Pairwise listOrderRel (list_tasks s) := by
  constructor
  · exact sortTasks_perm (stValues s)
  · have hs : List.Pairwise tasksLE (list_tasks s) := sortTasks_sorted (stValues s)
    refine List.Pairwise.imp ?_ hs
    intro a b hab
    rcases hab with ⟨ha, hb⟩ | ⟨he, hle⟩
    · constructor
      · intro h
        have h1 : completedB a = true := by simp [completedB, h]
        rw [h1] at ha
        exact absurd ha (by decide)
      · intro hiff
        have hbc : b.status = "completed" := by simpa [completedB] using hb
        have h1 : completedB a = true := by simp [completedB, hiff.mpr hbc]
        rw [h1] at ha
        exact absurd ha (by decide)
    · constructor
      · intro h
        have h1 : completedB a = true := by simp [completedB, h]
        have h2 : completedB b = true := he.symm.trans h1
        simpa [completedB] using h2
      · intro _
        exact hle

/-- C3 counterexample: with one stored task (tags ['work']), search with
the supplied tags criterion being the empty list returns that task, even
though the task does not contain at least one of the given (zero) tags:
the engine treats an empty supplied tags list as no criterion at all, so
the claim's reading of the tags criterion fails on this call. -/
theorem search_empty_tags_counterexample :
    search_tasks [("a", sampleA)] none none none (some []) = [sampleA] ∧
      (([] : List String).any (fun x => sampleA.tags.contains x)) = false := by
  exact ⟨rfl, rfl⟩

/-- C3 (amended): search returns exactly the stored tasks satisfying the
conjunction of the supplied criteria, in the order of list() (it equals
list() filtered by the match predicate), where a criterion supplied with
a falsy value — an empty query, status or priority string, or an empty
tags list — is treated as if it were not supplied; with no criteria at
all, search returns exactly list(). -/
theorem search_tasks_characterization (s : StState)
    (query status priority : Option String) (tags : Option (List String)) :
    search_tasks s query status priority tags =
      (list_tasks s).filter (taskMatches query status priority tags) ∧
      search_tasks s none none none none = list_tasks s := by
  constructor
  · rw [search_tasks, list_tasks, filter_sortTasks]
  · rw [search_tasks, list_tasks]
    have h1 : (stValues s).filter (taskMatches none none none none) = stValues s := by
      apply List.filter_eq_self.mpr
      intro a _
      rfl
    rw [h1]

/-- C8: a persisted engine constructed over an unparseable backing file
starts with an empty collection (the JSONDecodeError branch swallows the
corrupt data instead of surfacing a startup error), and an engine
constructed with the backing file absent likewise starts empty. -/
theorem fs_init_corrupt_or_absent_empty :
    (fs_init .corrupt).mem = [] ∧ (fs_init .absent).mem = [] ∧
      fs_list_tasks (fs_init .corrupt) = [] ∧
      fs_list_tasks (fs_init .absent) = [] :=
  ⟨rfl, rfl, rfl, rfl⟩

/-- C4: add checks in order: an empty title raises ValidationError with
the collection unmutated; with a non-empty title, a duplicate id raises
DuplicateKeyError leaving the collection and in particular the existing
entry unchanged; otherwise the task is appended keyed by its id and is
then retrievable under that id. -/
theorem add_task_contract (s : StState) (t : Task) :
    (t.title = "" → add_task s t = (.error .validationError, s)) ∧
      (t.title ≠ "" → ∀ t0 : Task, lookupTask s t.id = some t0 →
        add_task s t = (.error .duplicateKeyError, s) ∧
          lookupTask (add_task s t).2 t.id = some t0) ∧
      (t.title ≠ "" → lookupTask s t.id = none →
        add_task s t = (.ok (), s ++ [(t.id, t)]) ∧
          lookupTask (add_task s t).2 t.id = some t) := by
  refine ⟨?_, ?_, ?_⟩
  · intro h
    simp [add_task, h]
  · intro h t0 h0
    constructor
    · simp [add_task, h, h0]
    · simp [add_task, h, h0]
  · intro h h0
    constructor
    · simp [add_task, h, h0]
    · simp only [add_task, if_neg h, h0]
      exact lookup_append_self t.id t s h0

/-- C5: get, update and delete on an id absent from the collection raise
NotFoundError and leave the collection untouched; after a successful
delete the id is absent, so a following get raises NotFoundError and a
second delete raises NotFoundError. -/
theorem absent_id_contract :
    (∀ (s : StState) (id : String) (kws : List FieldUpd) (now : String),
        lookupTask s id = none →
          get_task s id = .error .notFoundError ∧
            update_task s id kws now = (.error .notFoundError, s) ∧
            delete_task s id = (.error .notFoundError, s)) ∧
      (∀ (s s2 : StState) (id : String),
        delete_task s id = (.ok (), s2) →
          get_task s2 id = .error .notFoundError ∧
            delete_task s2 id = (.error .notFoundError, s2)) := by
  constructor
  · intro s id kws now h
    refine ⟨?_, ?_, ?_⟩ <;> simp [get_task, update_task, delete_task, h]
  · intro s s2 id h
    cases hl : lookupTask s id with
    | none => simp [delete_task, hl] at h
    | some t =>
      have hs2 : s2 = s.filter (fun p => !(p.1 == id)) := by
        simp [delete_task, hl] at h
        exact h.symm
      have hnone : lookupTask s2 id = none := by
        rw [hs2]
        exact lookup_filter_ne id s
      exact ⟨by simp [get_task, hnone], by simp [delete_task, hnone]⟩

/-- C1 counterexample: on a stored task titled 'Old', an update supplying
a new title followed by an invalid priority raises ValidationError, yet
the stored task's title has already been changed to the supplied value —
a field supplied alongside the invalid priority in the same call does not
keep its prior value, so validation is not atomic as claimed. -/
theorem update_invalid_priority_counterexample :
    (update_task [("a", sampleA)] "a"
        [.titleF "New", .priorityF "urgent"] "T1").1 = .error .validationError ∧
      lookupTask (update_task [("a", sampleA)] "a"
        [.titleF "New", .priorityF "urgent"] "T1").2 "a"
        = some { sampleA with title := "New" } ∧
      sampleA.title = "Old" :=
  ⟨rfl, rfl, rfl⟩

/-- C1 (amended): an update whose supplied fields contain an invalid
priority (every priority supplied earlier in the call being valid) raises
ValidationError and does not stamp modified_at — when no modified_at
field was supplied before the invalid priority, the task's modified_at
keeps its prior value — but the update is not atomic: the fields supplied
before the invalid priority have been applied to the stored task, while
the invalid priority itself and every later-supplied field are not. -/
theorem update_invalid_priority_partial (s : StState) (id now v : String)
    (t t1 : Task) (b1 : Bool) (pre post : List FieldUpd)
    (hl : lookupTask s id = some t)
    (hv : validPriority v = false)
    (hpre : updateFields t false pre = .ok (t1, b1)) :
    update_task s id (pre ++ .priorityF v :: post) now
        = (.error .validationError, setTask s id t1) ∧
      ((∀ u ∈ pre, isModifiedAtUpd u = false) →
        t1.modified_at = t.modified_at) := by
  constructor
  · have hfields : updateFields t false (pre ++ .priorityF v :: post)
        = .error t1 := by
      rw [updateFields_append (.priorityF v :: post) pre t false t1 b1 hpre]
      simp [updateFields, hv]
    simp [update_task, hl, hfields]
  · intro hmod
    exact updateFields_ok_modified_at pre t false t1 b1 hpre hmod

/-- C6 counterexample: an update call that applies the supplied status
field and then aborts on an invalid priority has actually applied a
supplied field, yet modified_at is not set by that call — the stamp is
only reached when the loop completes without raising. -/
theorem modified_at_not_stamped_counterexample :
    (update_task [("b", sampleB)] "b"
        [.statusF "pending", .priorityF "bogus"] "T2").1 = .error .validationError ∧
      lookupTask (update_task [("b", sampleB)] "b"
        [.statusF "pending", .priorityF "bogus"] "T2").2 "b"
        = some { sampleB with status := "pending" } ∧
      ({ sampleB with status := "pending" } : Task).modified_at = none ∧
      isAttrUpd (.statusF "pending") = true :=
  ⟨rfl, rfl, rfl, rfl⟩

/-- C6 (amended): modified_at is None at construction; an update call
that returns successfully stamps modified_at with the call's current
timestamp exactly when at least one supplied field was an attribute of
the task (was applied), and otherwise leaves it at its prior value; an
update call that raises never stamps modified_at, so when such a call did
not directly supply a modified_at field the stored task's modified_at
keeps its prior value even if other supplied fields were applied before
the error. -/
theorem modified_at_contract :
    (∀ title id created_at : String,
      (newTask title id created_at).modified_at = none) ∧
      (∀ (s : StState) (id now : String) (kws : List FieldUpd) (t : Task),
        lookupTask s id = some t →
          (∀ t2 : Task, (update_task s id kws now).1 = .ok t2 →
            t2.modified_at =
              (if kws.any isAttrUpd then some now else t.modified_at)) ∧
          (∀ e : Err, (update_task s id kws now).1 = .error e →
            (∀ u ∈ kws, isModifiedAtUpd u = false) →
            ∃ t3 : Task, lookupTask (update_task s id kws now).2 id = some t3 ∧
              t3.modified_at = t.modified_at)) := by
  constructor
  · intro title id created_at
    rfl
  · intro s id now kws t hl
    constructor
    · intro t2 h2
      cases hu : updateFields t false kws with
      | error t1 => simp [update_task, hl, hu] at h2
      | ok pr =>
        obtain ⟨t1, applied⟩ := pr
        have happ : applied = (false || kws.any isAttrUpd) :=
          updateFields_applied kws t false t1 applied hu
        rw [Bool.false_or] at happ
        simp only [update_task, hl, hu] at h2
        cases hany : kws.any isAttrUpd with
        | true =>
          rw [hany] at happ
          rw [happ] at h2
          have h3 : ({ t1 with modified_at := some now } : Task) = t2 := by
            simpa using h2
          rw [← h3]
          simp
        | false =>
          rw [hany] at happ
          rw [happ] at h2
          have ht1 : t1 = t :=
            updateFields_no_attr kws t false t1 applied hu hany
          have h3 : t1 = t2 := by simpa using h2
          rw [← h3, ht1]
          simp
    · intro e he hmod
      cases hu : updateFields t false kws with
      | ok pr => simp [update_task, hl, hu] at he
      | error t1 =>
        refine ⟨t1, ?_, ?_⟩
        · simp only [update_task, hl, hu]
          exact lookup_setTask id t1 s t hl
        · exact updateFields_error_modified_at kws t false t1 hu hmod

/-- C10: supplied field names that are not attributes of Task are
silently ignored — an update behaves exactly as if those names had not
been supplied; in particular, when no supplied name is an attribute, the
call returns the task entirely unchanged and does not stamp modified_at,
while the persisted variant still rewrites its backing file (one more
completed save). -/
theorem update_unknown_fields (s : StState) (fs : FState) (id now : String)
    (kws : List FieldUpd) (t : Task) :
    update_task s id kws now = update_task s id (kws.filter isAttrUpd) now ∧
      (lookupTask s id = some t → (∀ u ∈ kws, isAttrUpd u = false) →
        update_task s id kws now = (.ok t, setTask s id t) ∧
          lookupTask (update_task s id kws now).2 id = some t) ∧
      (lookupTask fs.mem id = some t → (∀ u ∈ kws, isAttrUpd u = false) →
        (fs_update_task fs id kws now).1 = .ok t ∧
          (fs_update_task fs id kws now).2.mem = setTask fs.mem id t ∧
          (fs_update_task fs id kws now).2.writes = fs.writes + 1) := by
  have hfilter : (∀ u ∈ kws, isAttrUpd u = false) →
      updateFields t false kws = .ok (t, false) := by
    intro hall
    rw [updateFields_attrOnly kws t false]
    have hnil : kws.filter isAttrUpd = [] := by
      rw [List.filter_eq_nil_iff]
      intro u hu
      simp [hall u hu]
    rw [hnil]
    rfl
  refine ⟨?_, ?_, ?_⟩
  · cases hl : lookupTask s id with
    | none => simp [update_task, hl]
    | some t0 =>
      simp only [update_task, hl]
      rw [updateFields_attrOnly kws t0 false]
  · intro hl hall
    have hu := hfilter hall
    constructor
    · simp [update_task, hl, hu]
    · simp only [update_task, hl, hu]
      exact lookup_setTask id t s t hl
  · intro hl hall
    have hu := hfilter hall
    refine ⟨?_, ?_, ?_⟩ <;> simp [fs_update_task, hl, hu, fs_save]

theorem fs_add_task_ok_disk (fs : FState) (t : Task) (u : Unit) (fs1 : FState)
    (h : fs_add_task fs t = (.ok u, fs1)) :
    fs1.disk = .parsed (serializeTasks fs1.mem) := by
  by_cases ht : t.title = ""
  · simp [fs_add_task, ht] at h
  · rw [fs_add_task, if_neg ht] at h
    cases hl : lookupTask fs.mem t.id with
    | some _ =>
      rw [hl] at h
      simp at h
    | none =>
      rw [hl] at h
      have h2 : fs1 = fs_save { fs with mem := fs.mem ++ [(t.id, t)] } := by
        have := congrArg Prod.snd h
        simpa using this.symm
      rw [h2]
      rfl

theorem fs_add_all_disk :
    ∀ ts : List Task, ∀ fs fs' : FState, fs_add_all ts fs = .ok fs' →
      loadDisk fs.disk = fs.mem → loadDisk fs'.disk = fs'.mem := by
  intro ts
  induction ts with
  | nil =>
    intro fs fs' h hinv
    simp [fs_add_all] at h
    rw [← h]
    exact hinv
  | cons t ts ih =>
    intro fs fs' h hinv
    rw [fs_add_all] at h
    cases hadd : fs_add_task fs t with
    | mk out fs1 =>
      rw [hadd] at h
      cases out with
      | error e => simp at h
      | ok u =>
        have hdisk : fs1.disk = .parsed (serializeTasks fs1.mem) :=
          fs_add_task_ok_disk fs t u fs1 hadd
        have hinv1 : loadDisk fs1.disk = fs1.mem := by
          rw [hdisk]
          exact loadDisk_serialize fs1.mem
        exact ih fs1 fs' h hinv1

/-- C7: round trip of the persisted variant — after any sequence of
successful adds starting from an absent backing file, a fresh engine
constructed over the resulting backing file loads exactly the same
collection, so list() on the fresh engine returns the same tasks, equal
in id and in every field value, as list() on the original engine. -/
theorem fs_round_trip (ts : List Task) (fs1 : FState)
    (h : fs_add_all ts (fs_init .absent) = .ok fs1) :
    (fs_init fs1.disk).mem = fs1.mem ∧
      fs_list_tasks (fs_init fs1.disk) = fs_list_tasks fs1 := by
  have hinv : loadDisk fs1.disk = fs1.mem :=
    fs_add_all_disk ts (fs_init .absent) fs1 h rfl
  exact ⟨hinv, by rw [fs_list_tasks, fs_list_tasks, fs_init, hinv]⟩

theorem stepFile_agree (op : Op) (fs : FState) :
    (stepFile op fs).1 = (stepMem op fs.mem).1 ∧
      (stepFile op fs).2.mem = (stepMem op fs.mem).2 := by
  cases op with
  | addOp t =>
    simp only [stepFile, stepMem, fs_add_task, add_task]
    by_cases ht : t.title = ""
    · simp [ht]
    · rw [if_neg ht, if_neg ht]
      cases hl : lookupTask fs.mem t.id with
      | some t0 => simp [hl]
      | none => simp [hl, fs_save]
  | getOp id =>
    simp only [stepFile, stepMem, fs_get_task, get_task]
    cases hl : lookupTask fs.mem id <;> simp [hl]
  | updateOp id kws now =>
    simp only [stepFile, stepMem, fs_update_task, update_task]
    cases hl : lookupTask fs.mem id with
    | none => simp [hl]
    | some t =>
      cases hu : updateFields t false kws with
      | error t1 => simp [hl, hu]
      | ok pr =>
        obtain ⟨t1, applied⟩ := pr
        simp [hl, hu, fs_save]
  | deleteOp id =>
    simp only [stepFile, stepMem, fs_delete_task, delete_task]
    cases hl : lookupTask fs.mem id <;> simp [hl, fs_save]
  | listOp => exact ⟨rfl, rfl⟩
  | searchOp q st p tg => exact ⟨rfl, rfl⟩

theorem runFile_agree : ∀ ops : List Op, ∀ fs : FState,
    (runFile ops fs).1 = (runMem ops fs.mem).1 ∧
      (runFile ops fs).2.mem = (runMem ops fs.mem).2 := by
  intro ops
  induction ops with
  | nil => intro fs; exact ⟨rfl, rfl⟩
  | cons op ops ih =>
    intro fs
    have hstep := stepFile_agree op fs
    have htail := ih (stepFile op fs).2
    constructor
    · show (stepFile op fs).1 :: (runFile ops (stepFile op fs).2).1
          = (stepMem op fs.mem).1 :: (runMem ops (stepMem op fs.mem).2).1
      rw [hstep.1, htail.1, hstep.2]
    · show (runFile ops (stepFile op fs).2).2.mem
          = (runMem ops (stepMem op fs.mem).2).2
      rw [htail.2, hstep.2]

/-- C9: the volatile and the persisted storage engine have identical
semantics — for every sequence of add/get/update/delete/list/search
calls starting from a fresh engine (empty volatile dict; persisted engine
over an absent file), the two variants produce the same sequence of
results and raised errors, and the same in-memory collection; they differ
only in the persisted variant's disk and write-count components. -/
theorem variants_equivalent (ops : List Op) :
    (runFile ops (fs_init .absent)).1 = (runMem ops []).1 ∧
      (runFile ops (fs_init .absent)).2.mem = (runMem ops []).2 :=
  runFile_agree ops (fs_init .absent)

/-! Witness instantiations of the theorems with hypotheses. -/

theorem update_invalid_priority_partial_witness :
    update_task [("a", sampleA)] "a"
        ([.titleF "New"] ++ .priorityF "urgent" :: []) "T1"
        = (.error .validationError,
            setTask [("a", sampleA)] "a" { sampleA with title := "New" }) ∧
      ((∀ u ∈ [FieldUpd.titleF "New"], isModifiedAtUpd u = false) →
        ({ sampleA with title := "New" } : Task).modified_at
          = sampleA.modified_at) :=
  update_invalid_priority_partial [("a", sampleA)] "a" "T1" "urgent"
    sampleA { sampleA with title := "New" } true [.titleF "New"] []
    rfl rfl rfl

theorem add_task_contract_witness :
    add_task sampleState sampleA = (.error .duplicateKeyError, sampleState) ∧
      lookupTask (add_task sampleState sampleA).2 sampleA.id = some sampleA :=
  (add_task_contract sampleState sampleA).2.1 (by decide) sampleA rfl

theorem absent_id_contract_witness :
    get_task sampleState "zzz" = .error .notFoundError ∧
      get_task (delete_task sampleState "b").2 "b" = .error .notFoundError :=
  ⟨(absent_id_contract.1 sampleState "zzz" [] "T0" rfl).1,
    (absent_id_contract.2 sampleState [("a", sampleA)] "b" rfl).1⟩

theorem modified_at_contract_witness :
    (newTask "X" "i" "T0").modified_at = none ∧
      ({ sampleA with status := "completed", modified_at := some "T3" } : Task).modified_at
        = (if [FieldUpd.statusF "completed"].any isAttrUpd then some "T3"
            else sampleA.modified_at) :=
  ⟨modified_at_contract.1 "X" "i" "T0",
    ((modified_at_contract.2 sampleState "a" "T3" [.statusF "completed"]
        sampleA rfl).1
      { sampleA with status := "completed", modified_at := some "T3" } rfl)⟩

theorem update_unknown_fields_witness :
    update_task sampleState "a" [.unknownF "zzz"] "T4"
        = (.ok sampleA, setTask sampleState "a" sampleA) ∧
      (fs_update_task (fs_init (.parsed (serializeTasks sampleState)))
          "a" [.unknownF "zzz"] "T4").2.writes
        = (fs_init (.parsed (serializeTasks sampleState))).writes + 1 :=
  ⟨((update_unknown_fields sampleState
        (fs_init (.parsed (serializeTasks sampleState))) "a" "T4"
        [.unknownF "zzz"] sampleA).2.1 rfl (by decide)).1,
    ((update_unknown_fields sampleState
        (fs_init (.parsed (serializeTasks sampleState))) "a" "T4"
        [.unknownF "zzz"] sampleA).2.2 rfl (by decide)).2.2⟩

theorem fs_round_trip_witness :
    (fs_init (FState.mk sampleState
        (.parsed (serializeTasks sampleState)) 2).disk).mem
        = (FState.mk sampleState (.parsed (serializeTasks sampleState)) 2).mem ∧
      fs_list_tasks (fs_init (FState.mk sampleState
          (.parsed (serializeTasks sampleState)) 2).disk)
        = fs_list_tasks (FState.mk sampleState
            (.parsed (serializeTasks sampleState)) 2) :=
  fs_round_trip [sampleA, sampleB]
    (FState.mk sampleState (.parsed (serializeTasks sampleState)) 2) rfl

end TodoSpec
